import Mathlib

/-!
# Verification of the Co-do pipe-command shell

A shallow embedding of the command-line interpreter and pipeline engine:
the pipeline tokenizer, the shell-variant tokenizer, the quote-aware pipe
splitter of the inline executor, the naive pipe splitter of the standalone
parser, the per-verb argument grammars, the sequential pipe executor, the
OPFS rename rollback, and the line-editor state machine.  Strings are
modelled as `String`/`List Char`; JavaScript numbers as `Int` with an
explicit NaN constructor where parseInt can fail; JavaScript records with
statically known keys as structures of `Option` fields (absent = `none`).
-/

namespace CoDo

/-- The double-quote character. -/
def dq : Char := '"'

/-- The single-quote character (code point 39). -/
def sq : Char := Char.ofNat 39

/-- ASCII fragment of the whitespace class used by JavaScript's
`String.prototype.trim` and the `\s` regex class. -/
def isWs (c : Char) : Bool := c == ' ' || c == '\t' || c == '\n' || c == '\r'

/-- JavaScript `trim` on a character list: drop whitespace from both ends. -/
def jsTrim (l : List Char) : List Char :=
  ((l.dropWhile isWs).reverse.dropWhile isWs).reverse

/-- JavaScript `trim` on a string. -/
def jsTrimStr (s : String) : String := ⟨jsTrim s.data⟩

/-- First whitespace-delimited word of an (already trimmed) character list:
`split(/\s+/)[0]` of the source, which on a trimmed string is the maximal
non-whitespace prefix. -/
def firstWordL (l : List Char) : List Char := l.takeWhile (fun c => !(isWs c))

/-- Lower-casing as the source's `toLowerCase` (ASCII). -/
def toLowerStr (s : String) : String := ⟨s.data.map Char.toLower⟩

/-- Does `pat` occur as a contiguous run inside the character list. -/
def occursIn (pat : List Char) : List Char → Bool
  | [] => pat.isEmpty
  | c :: rest => pat.isPrefixOf (c :: rest) || occursIn pat rest

/-- `sub` occurs as a contiguous substring of `s`: JavaScript
`String.prototype.includes`. -/
def containsSub (s sub : String) : Bool := occursIn sub.data s.data

/-- Does the string contain the character `c`. -/
def containsChar (s : String) (c : Char) : Bool := s.data.contains c

/-- Join a list of strings with a separator: JavaScript `Array.join`. -/
def joinWith (sep : String) : List String → String
  | [] => ""
  | [x] => x
  | x :: xs => x ++ sep ++ joinWith sep xs

/-- Split a character list at every occurrence of `sep`, keeping empty
segments: JavaScript `String.prototype.split` with a one-character
separator. -/
def splitCharAux (sep : Char) (cur : List Char) : List Char → List (List Char)
  | [] => [cur]
  | c :: rest =>
    if c == sep then cur :: splitCharAux sep [] rest
    else splitCharAux sep (cur ++ [c]) rest

/-- `String.prototype.split` with a one-character separator. -/
def jsSplitChar (sep : Char) (s : String) : List String :=
  (splitCharAux sep [] s.data).map (fun l => (⟨l⟩ : String))

/-- Decimal value of a digit run. -/
def digitsToNat (l : List Char) : Nat :=
  l.foldl (fun a c => a * 10 + (c.toNat - 48)) 0

/-- JavaScript `parseInt(s, 10)` on its radix-10 fragment: skip leading
whitespace, optional sign, then a maximal run of decimal digits; `none`
models NaN (no digits). -/
def jsParseInt (s : String) : Option Int :=
  let l := s.data.dropWhile isWs
  let sl : Int × List Char :=
    match l with
    | c :: r =>
      if c == '-' then (-1, r)
      else if c == '+' then (1, r)
      else (1, c :: r)
    | [] => (1, [])
  let ds := sl.2.takeWhile Char.isDigit
  if ds.isEmpty then none else some (sl.1 * (digitsToNat ds : Int))

/-- Does the string start with a dash: `arg.startsWith('-')`. -/
def startsDash (s : String) : Bool :=
  match s.data with
  | c :: _ => c == '-'
  | [] => false

/-- Does the string match `/^-\d+$/`: a dash followed by one or more
digits and nothing else. -/
def isDashDigits (s : String) : Bool :=
  match s.data with
  | c :: rest => c == '-' && !rest.isEmpty && rest.all Char.isDigit
  | [] => false

/-!
## Tokenizers and pipe splitters

Three scanners from the source:
* `tokenize` — `tokenize` of `src/pipeParser.ts` (splits on space and tab,
  quote characters structural and discarded);
* `parseCommandTokens` — `TerminalManager.parseCommand` of the terminal
  component (splits on space only, quotes structural and discarded);
* `parsePipeChain` — `TerminalManager.parsePipeChain` (splits on unquoted
  `|`, quote characters kept in the segment text).
-/

/-- Scanner of `tokenize` (pipeParser.ts): state is the open quote (if
any) and the pending token. -/
def tokenizeAux : Option Char → List Char → List Char → List (List Char)
  | _, cur, [] => if cur.isEmpty then [] else [cur]
  | some q, cur, c :: rest =>
    if c == q then tokenizeAux none cur rest
    else tokenizeAux (some q) (cur ++ [c]) rest
  | none, cur, c :: rest =>
    if c == dq || c == sq then tokenizeAux (some c) cur rest
    else if c == ' ' || c == '\t' then
      if cur.isEmpty then tokenizeAux none [] rest
      else cur :: tokenizeAux none [] rest
    else tokenizeAux none (cur ++ [c]) rest

/-- `tokenize` of pipeParser.ts. -/
def tokenize (s : String) : List String :=
  (tokenizeAux none [] s.data).map (fun l => (⟨l⟩ : String))

/-- Scanner of `TerminalManager.parseCommand`: identical to `tokenizeAux`
except that only the space character separates tokens (tab is ordinary
content). -/
def parseCmdAux : Option Char → List Char → List Char → List (List Char)
  | _, cur, [] => if cur.isEmpty then [] else [cur]
  | some q, cur, c :: rest =>
    if c == q then parseCmdAux none cur rest
    else parseCmdAux (some q) (cur ++ [c]) rest
  | none, cur, c :: rest =>
    if c == dq || c == sq then parseCmdAux (some c) cur rest
    else if c == ' ' then
      if cur.isEmpty then parseCmdAux none [] rest
      else cur :: parseCmdAux none [] rest
    else parseCmdAux none (cur ++ [c]) rest

/-- `TerminalManager.parseCommand` (the shell-variant tokenizer). -/
def parseCommandTokens (s : String) : List String :=
  (parseCmdAux none [] s.data).map (fun l => (⟨l⟩ : String))

/-- Scanner of `TerminalManager.parsePipeChain`: quote characters are kept
in the segment; an unquoted `|` pushes the trimmed pending segment (even
when empty); end of input pushes the pending segment only when its trim is
non-empty. -/
def pipeChainAux : Option Char → List Char → List Char → List (List Char)
  | _, cur, [] => if (jsTrim cur).isEmpty then [] else [jsTrim cur]
  | some q, cur, c :: rest =>
    if c == q then pipeChainAux none (cur ++ [c]) rest
    else pipeChainAux (some q) (cur ++ [c]) rest
  | none, cur, c :: rest =>
    if c == dq || c == sq then pipeChainAux (some c) (cur ++ [c]) rest
    else if c == '|' then jsTrim cur :: pipeChainAux none [] rest
    else pipeChainAux none (cur ++ [c]) rest

/-- `TerminalManager.parsePipeChain`. -/
def parsePipeChain (s : String) : List String :=
  (pipeChainAux none [] s.data).map (fun l => (⟨l⟩ : String))

/-- The quote state of `parsePipeChain`'s scan after consuming a prefix:
`some q` means a span opened by the quote character `q` is still open.
This is the vocabulary in which "a pipe occurs inside an open single- or
double-quoted span" is stated; its transitions are exactly those of
`pipeChainAux`, without the segment bookkeeping. -/
def scanQuoteFrom (st : Option Char) : List Char → Option Char
  | [] => st
  | c :: rest =>
    match st with
    | some q => scanQuoteFrom (if c == q then none else some q) rest
    | none => scanQuoteFrom (if c == dq || c == sq then some c else none) rest

/-!
## Argument grammar table (`COMMAND_PATTERNS` of pipeParser.ts)

JavaScript argument records have statically known keys per verb, so the
record is a structure of `Option` fields; `none` is an absent key.  The
`lines` field can hold NaN (`parseInt` of a non-numeric token), hence
`JsNum`.
-/

/-- A JavaScript number that is either an integer or NaN. -/
inductive JsNum
  | nan
  | int (n : Int)
deriving DecidableEq

/-- The argument record produced by the per-verb `parseArgs` functions. -/
structure PipeArgs where
  path : Option String := none
  paths : Option (List String) := none
  pattern : Option String := none
  caseInsensitive : Option Bool := none
  invertMatch : Option Bool := none
  rev : Option Bool := none
  numeric : Option Bool := none
  uniq : Option Bool := none
  ignoreCase : Option Bool := none
  count : Option Bool := none
  duplicatesOnly : Option Bool := none
  uniqueOnly : Option Bool := none
  lines : Option JsNum := none
  countLines : Option Bool := none
  countWords : Option Bool := none
  countChars : Option Bool := none
  content : Option String := none
deriving DecidableEq

/-- `COMMAND_PATTERNS.cat.parseArgs`. -/
def catParseArgs (args : List String) : PipeArgs :=
  match args with
  | [] => {}
  | [p] => { path := some p }
  | _ => { paths := some args }

/-- The leading flag loop of `COMMAND_PATTERNS.grep.parseArgs`: consume
tokens while they start with a dash, recording `-i` and `-v`. -/
def grepFlagLoop (r : PipeArgs) : List String → PipeArgs × List String
  | [] => (r, [])
  | a :: rest =>
    if startsDash a then
      let r :=
        if a == "-i" then { r with caseInsensitive := some true }
        else if a == "-v" then { r with invertMatch := some true }
        else r
      grepFlagLoop r rest
    else (r, a :: rest)

/-- `COMMAND_PATTERNS.grep.parseArgs`: flags, then a required pattern,
then an optional path; further tokens are ignored. -/
def grepParseArgs (args : List String) : PipeArgs :=
  match grepFlagLoop {} args with
  | (r, []) => r
  | (r, p :: rest) =>
    let r := { r with pattern := some p }
    match rest with
    | [] => r
    | q :: _ => { r with path := some q }

/-- One step of `COMMAND_PATTERNS.sort.parseArgs`. -/
def sortStep (r : PipeArgs) (a : String) : PipeArgs :=
  if a == "-r" || a == "--reverse" then { r with rev := some true }
  else if a == "-n" || a == "--numeric" then { r with numeric := some true }
  else if a == "-u" || a == "--unique" then { r with uniq := some true }
  else if a == "-f" || a == "--ignore-case" then { r with ignoreCase := some true }
  else if !(startsDash a) then { r with path := some a }
  else r

/-- `COMMAND_PATTERNS.sort.parseArgs`. -/
def sortParseArgs (args : List String) : PipeArgs := args.foldl sortStep {}

/-- One step of `COMMAND_PATTERNS.uniq.parseArgs`. -/
def uniqStep (r : PipeArgs) (a : String) : PipeArgs :=
  if a == "-c" || a == "--count" then { r with count := some true }
  else if a == "-d" || a == "--repeated" then { r with duplicatesOnly := some true }
  else if a == "-u" || a == "--unique" then { r with uniqueOnly := some true }
  else if a == "-i" || a == "--ignore-case" then { r with ignoreCase := some true }
  else if !(startsDash a) then { r with path := some a }
  else r

/-- `COMMAND_PATTERNS.uniq.parseArgs`. -/
def uniqParseArgs (args : List String) : PipeArgs := args.foldl uniqStep {}

/-- `parseInt(x, 10)` packaged as a `JsNum`. -/
def jsNumOf (s : String) : JsNum :=
  match jsParseInt s with
  | some n => .int n
  | none => .nan

/-- `parseInt(args[i+1] || '10', 10)` — an empty token falls back to the
string "10" before parsing. -/
def jsNumOr10 (s : String) : JsNum := jsNumOf (if s == "" then "10" else s)

/-- The scan shared by `COMMAND_PATTERNS.head.parseArgs` and
`COMMAND_PATTERNS.tail.parseArgs`: `-n N` and `-N` set `lines` (last one
wins), non-dash tokens set `path`, other flags are ignored. -/
def headTailArgsAux (r : PipeArgs) : List String → PipeArgs
  | [] => r
  | a :: rest =>
    if a == "-n" && !rest.isEmpty then
      match rest with
      | v :: rest2 => headTailArgsAux { r with lines := some (jsNumOr10 v) } rest2
      | [] => r
    else if isDashDigits a then
      headTailArgsAux { r with lines := some (jsNumOf (a.drop 1)) } rest
    else if !(startsDash a) then headTailArgsAux { r with path := some a } rest
    else headTailArgsAux r rest

/-- `COMMAND_PATTERNS.head.parseArgs` (= `tail.parseArgs`). -/
def headTailParseArgs (args : List String) : PipeArgs := headTailArgsAux {} args

/-- One step of `COMMAND_PATTERNS.wc.parseArgs`; the second component of
the state is the `hasSpecificFlags` boolean.  `-l` always clears the other
two count fields; `-w` and `-c` clear the others only when no count flag
was seen before. -/
def wcStep : PipeArgs × Bool → String → PipeArgs × Bool
  | (r, hsf), a =>
    if a == "-l" || a == "--lines" then
      ({ r with countLines := some true, countWords := some false,
                countChars := some false }, true)
    else if a == "-w" || a == "--words" then
      let r := { r with countWords := some true }
      let r := if hsf then r else { r with countLines := some false, countChars := some false }
      (r, true)
    else if a == "-c" || a == "--chars" || a == "-m" then
      let r := { r with countChars := some true }
      let r := if hsf then r else { r with countLines := some false, countWords := some false }
      (r, true)
    else if !(startsDash a) then ({ r with path := some a }, hsf)
    else (r, hsf)

/-- `COMMAND_PATTERNS.wc.parseArgs`. -/
def wcParseArgs (args : List String) : PipeArgs := (args.foldl wcStep ({}, false)).1

/-- `COMMAND_PATTERNS.read_file.parseArgs`. -/
def readFileParseArgs (args : List String) : PipeArgs :=
  match args with
  | [] => {}
  | p :: _ => { path := some p }

/-- `COMMAND_PATTERNS.write_file.parseArgs`. -/
def writeFileParseArgs (args : List String) : PipeArgs :=
  match args with
  | [] => {}
  | p :: rest =>
    if rest.isEmpty then { path := some p }
    else { path := some p, content := some (joinWith " " rest) }

/-!
## Pipe command classifier and parser (pipeParser.ts)
-/

/-- A parsed pipeline stage: `PipeCommand` of pipeParser.ts. -/
structure PipeCommand where
  tool : String
  args : PipeArgs
deriving DecidableEq

/-- `ParseResult` of pipeParser.ts. -/
structure ParseResult where
  isPipeCommand : Bool
  commands : List PipeCommand
  error : Option String := none
deriving DecidableEq

/-- The keys of `COMMAND_PATTERNS`. -/
def commandTools : List String :=
  ["cat", "grep", "sort", "uniq", "head", "tail", "wc", "read_file", "write_file"]

/-- The keys of `COMMAND_ALIASES` of pipeParser.ts. -/
def pipeAliasNames : List String := ["less", "more", "type", "find"]

/-- `COMMAND_ALIASES` resolution of pipeParser.ts. -/
def resolvePipeAlias (name : String) : String :=
  if name == "less" || name == "more" || name == "type" then "cat"
  else if name == "find" then "grep"
  else name

/-- `COMMAND_PATTERNS[name]`: the tool name and parseArgs function. -/
def lookupCmd (name : String) : Option (String × (List String → PipeArgs)) :=
  if name == "cat" then some ("cat", catParseArgs)
  else if name == "grep" then some ("grep", grepParseArgs)
  else if name == "sort" then some ("sort", sortParseArgs)
  else if name == "uniq" then some ("uniq", uniqParseArgs)
  else if name == "head" then some ("head", headTailParseArgs)
  else if name == "tail" then some ("tail", headTailParseArgs)
  else if name == "wc" then some ("wc", wcParseArgs)
  else if name == "read_file" then some ("read_file", readFileParseArgs)
  else if name == "write_file" then some ("write_file", writeFileParseArgs)
  else none

/-- `parseCommand` of pipeParser.ts: tokenize the trimmed segment, lower
and alias-resolve the first token, look it up, parse the trailing
arguments. -/
def parsePipeSegment (commandStr : String) : Option PipeCommand :=
  match tokenize (jsTrimStr commandStr) with
  | [] => none
  | t0 :: args =>
    let cmdName := resolvePipeAlias (toLowerStr t0)
    match lookupCmd cmdName with
    | none => none
    | some tp => some ⟨tp.1, tp.2 args⟩

/-- Is the word a `COMMAND_PATTERNS` key or a `COMMAND_ALIASES` key. -/
def isKnownPipeWord (w : String) : Bool :=
  commandTools.contains w || pipeAliasNames.contains w

/-- `isPipeCommandSyntax` of pipeParser.ts. -/
def isPipeCmdSyn (input : String) : Bool :=
  let trimmed := jsTrimStr input
  if !(containsChar trimmed '|') then
    let firstWord := toLowerStr ⟨firstWordL trimmed.data⟩
    if firstWord == "" then false
    else isKnownPipeWord firstWord
      && !(containsChar trimmed '?') && !(containsSub trimmed "please")
  else
    let segments := jsSplitChar '|' trimmed
    if segments.length < 2 then false
    else
      match segments with
      | [] => false
      | s0 :: _ =>
        let firstCmd := toLowerStr ⟨firstWordL (jsTrim s0.data)⟩
        if firstCmd == "" then false else isKnownPipeWord firstCmd

/-- The segment list of `parsePipeCommand`: split the trimmed line at
every `|` (NOT quote-aware), trim each piece, drop empties. -/
def splitSegments (trimmed : String) : List String :=
  ((jsSplitChar '|' trimmed).map jsTrimStr).filter (fun s => s ≠ "")

instance {ε α : Type} [DecidableEq ε] [DecidableEq α] : DecidableEq (Except ε α) :=
  fun x y =>
    match x, y with
    | .ok a, .ok b =>
      if h : a = b then isTrue (by rw [h])
      else isFalse (by intro he; cases he; exact h rfl)
    | .error a, .error b =>
      if h : a = b then isTrue (by rw [h])
      else isFalse (by intro he; cases he; exact h rfl)
    | .ok _, .error _ => isFalse (by intro he; cases he)
    | .error _, .ok _ => isFalse (by intro he; cases he)

/-- The per-segment loop of `parsePipeCommand`: abort at the first
unknown command, naming the offending segment's first word. -/
def parseSegments : List String → Except String (List PipeCommand)
  | [] => .ok []
  | seg :: rest =>
    match parsePipeSegment seg with
    | none => .error ("Unknown command: " ++ (⟨firstWordL seg.data⟩ : String))
    | some c =>
      match parseSegments rest with
      | .error e => .error e
      | .ok cs => .ok (c :: cs)

/-- JavaScript truthiness of `args.path` (an empty-string path is falsy). -/
def pathTruthy (r : PipeArgs) : Bool :=
  match r.path with
  | some s => s ≠ ""
  | none => false

/-- JavaScript truthiness of `args.paths` (an array is always truthy). -/
def pathsTruthy (r : PipeArgs) : Bool := r.paths.isSome

/-- The first-stage source validation of `parsePipeCommand`. -/
def validateFirst (cmds : List PipeCommand) : Option String :=
  match cmds with
  | [] => none
  | c :: _ =>
    if ["cat", "read_file", "grep"].contains c.tool then
      if !(pathTruthy c.args) && !(pathsTruthy c.args) then
        some ("First command (" ++ c.tool ++ ") requires a file path")
      else none
    else none

/-- `parsePipeCommand` of pipeParser.ts. -/
def parsePipeCommand (input : String) : ParseResult :=
  let trimmed := jsTrimStr input
  if !(isPipeCmdSyn trimmed) then ⟨false, [], none⟩
  else
    let segments := splitSegments trimmed
    if segments.isEmpty then ⟨false, [], none⟩
    else
      match parseSegments segments with
      | .error e => ⟨true, [], some e⟩
      | .ok cmds =>
        match validateFirst cmds with
        | some e => ⟨true, [], some e⟩
        | none => ⟨true, cmds, none⟩

/-!
## Pipeline executor (`TerminalManager.executeCommand`)

The per-stage loop of `executeCommand`: the handler dispatch
(`runCommand`, which resolves aliases and touches the file store) is
abstracted as the `run` parameter; the loop's stdin threading and
short-circuiting are translated as-is.  The first component of the result
is an instrumentation trace: each executed stage paired with the stdin it
was passed, in execution order.
-/

/-- `CommandResult` of the terminal component. -/
structure CommandResult where
  success : Bool
  output : String
  error : Option String := none
deriving DecidableEq

/-- Terminal outcome of a pipeline run. -/
inductive PipeOutcome
  | done (finalStdin : Option String)
  | failed (err : Option String)
deriving DecidableEq

/-- The stage loop of `executeCommand`: run each stage with the current
stdin; on failure stop and surface the stage's error; on success thread
the output as the next stdin. -/
def execChainAux (run : String → Option String → CommandResult)
    (stdin : Option String) :
    List String → List (String × Option String) × PipeOutcome
  | [] => ([], .done stdin)
  | cmd :: rest =>
    let r := run cmd stdin
    if r.success then
      let t := execChainAux run (some r.output) rest
      ((cmd, stdin) :: t.1, t.2)
    else ([(cmd, stdin)], .failed r.error)

/-- `executeCommand`'s pipeline loop, started with no stdin. -/
def executePipeline (run : String → Option String → CommandResult)
    (stages : List String) : List (String × Option String) × PipeOutcome :=
  execChainAux run none stages

/-!
## grep handlers and the stateful global regex

`cmdGrep` builds `new RegExp(pattern, 'gi')` once and calls `.test` on
every line inside a filter.  A JavaScript global regex is stateful: `test`
searches from `lastIndex`, advances it past a match, and resets it to 0
only on failure.  The regex engine is modelled for literal patterns (no
metacharacters), which covers the inputs used in the theorems; matching is
case-insensitive as the `i` flag prescribes.
-/

/-- Case-insensitive prefix match of a literal pattern. -/
def ciPrefix (pat s : List Char) : Bool :=
  (pat.map Char.toLower).isPrefixOf (s.map Char.toLower)

/-- Least index `≥ idx` (counting from `idx` at the head of `rest`) where
the literal pattern matches case-insensitively. -/
def findAt (pat : List Char) : List Char → Nat → Option Nat
  | rest, idx =>
    if ciPrefix pat rest then some idx
    else
      match rest with
      | [] => none
      | _ :: r => findAt pat r (idx + 1)

/-- First match position of the literal pattern in `s` at or after
`start` — the search `RegExp.exec` performs from `lastIndex`. -/
def jsFindFrom (pat s : List Char) (start : Nat) : Option Nat :=
  findAt pat (s.drop start) start

/-- `regex.test(s)` for a global regex with state `lastIndex = li`:
returns the verdict and the new `lastIndex`. -/
def regexTest (pat : List Char) (li : Nat) (s : List Char) : Bool × Nat :=
  match jsFindFrom pat s li with
  | some i => (true, i + pat.length)
  | none => (false, 0)

/-- The line filter of `cmdGrep`: one shared global regex tested against
each line in order, its `lastIndex` carried from call to call. -/
def grepFilterAux (pat : List Char) (li : Nat) : List (List Char) → List (List Char)
  | [] => []
  | l :: ls =>
    let t := regexTest pat li l
    if t.1 then l :: grepFilterAux pat t.2 ls
    else grepFilterAux pat t.2 ls

/-- The numbered variant of the filter used by the direct-mode `cmdGrep`
(part_000): pairs of 1-based line number and line. -/
def grepFilterNumAux (pat : List Char) (li : Nat) :
    List (Nat × List Char) → List (Nat × List Char)
  | [] => []
  | p :: ps =>
    let t := regexTest pat li p.2
    if t.1 then p :: grepFilterNumAux pat t.2 ps
    else grepFilterNumAux pat t.2 ps

/-- Escape sequence opening the red match highlight. -/
def hlOpen : List Char := "\x1b[1;31m".data

/-- Escape sequence closing the highlight. -/
def hlClose : List Char := "\x1b[0m".data

/-- `line.replace(regex, m => ...)` for a global literal regex: every
(leftmost, non-overlapping, case-insensitive) occurrence is wrapped in the
highlight escapes.  The fuel argument (instantiated with the line length,
which suffices for a nonempty pattern) makes the recursion structural. -/
def hlAux (pat : List Char) : Nat → List Char → List Char
  | 0, l => l
  | _ + 1, [] => []
  | fuel + 1, c :: rest =>
    if ciPrefix pat (c :: rest) then
      hlOpen ++ (c :: rest).take pat.length ++ hlClose
        ++ hlAux pat fuel ((c :: rest).drop pat.length)
    else c :: hlAux pat fuel rest

/-- Highlight all matches of a literal pattern in a line.  Only nonempty
patterns are highlighted; `cmdGrep` never reaches this with an empty
pattern. -/
def highlight (pat : List Char) (l : List Char) : List Char :=
  if pat.isEmpty then l else hlAux pat l.length l

/-- Pipe-mode `cmdGrep` of the pipe-aware terminal (part_001), with stdin
set and no path: filter the stdin lines through the shared global regex
and emit the highlighted matching lines with no line-number prefix. -/
def cmdGrepPipe (pattern stdin : String) : CommandResult :=
  if pattern == "" then ⟨false, "", some "Usage: grep <pattern> [path]"⟩
  else
    let lines := splitCharAux '\n' [] stdin.data
    let ms := grepFilterAux pattern.data 0 lines
    if ms.isEmpty then ⟨true, "", none⟩
    else
      ⟨true, joinWith "\n" (ms.map (fun l => (⟨highlight pattern.data l⟩ : String))), none⟩

/-- Direct-mode `cmdGrep` of the original terminal (part_000) on given
file content: each matching line is prefixed with its 1-based line number
and a colon. -/
def cmdGrepDirect (pattern content : String) : CommandResult :=
  if pattern == "" then ⟨false, "", some "Usage: grep <pattern> <path>"⟩
  else
    let lines := splitCharAux '\n' [] content.data
    let numbered := lines.enum.map (fun p => (p.1 + 1, p.2))
    let ms := grepFilterNumAux pattern.data 0 numbered
    if ms.isEmpty then ⟨true, "\x1b[2m(no matches)\x1b[0m", none⟩
    else
      ⟨true,
        joinWith "\n" (ms.map (fun p =>
          "\x1b[1;33m" ++ toString p.1 ++ ":\x1b[0m "
            ++ (⟨highlight pattern.data p.2⟩ : String))), none⟩

/-!
## head / tail counts and slices
-/

/-- `args[1] || '10'`: an absent or empty count token becomes "10". -/
def jsOr10 (a : Option String) : String :=
  match a with
  | none => "10"
  | some s => if s == "" then "10" else s

/-- `parseInt(args[1] || '10') || 10` at the `runCommand` call sites for
head and tail: NaN and 0 fall back to 10, every other integer (negative
included) is passed through. -/
def lineCountArg (a : Option String) : Int :=
  match jsParseInt (jsOr10 a) with
  | none => 10
  | some n => if n == 0 then 10 else n

/-- JavaScript `l.slice(0, e)`: a negative end counts from the end of the
list. -/
def jsSliceZeroTo (l : List String) (e : Int) : List String :=
  if e < 0 then l.take (l.length - e.natAbs) else l.take e.toNat

/-- JavaScript `l.slice(st)`: a negative start counts from the end. -/
def jsSliceFrom (l : List String) (st : Int) : List String :=
  if st < 0 then l.drop (l.length - st.natAbs) else l.drop st.toNat

/-- The line slicing of `cmdHead`: `content.split('\n').slice(0, lines)`
rejoined. -/
def cmdHeadLines (content : String) (lines : Int) : String :=
  joinWith "\n" (jsSliceZeroTo (jsSplitChar '\n' content) lines)

/-- The line slicing of `cmdTail`: `content.split('\n').slice(-lines)`
rejoined. -/
def cmdTailLines (content : String) (lines : Int) : String :=
  joinWith "\n" (jsSliceFrom (jsSplitChar '\n' content) (-lines))

/-- Direct-mode head: the count comes from `parseInt(args[1]||'10')||10`. -/
def runHeadDirect (countArg : Option String) (content : String) : String :=
  cmdHeadLines content (lineCountArg countArg)

/-- Direct-mode tail. -/
def runTailDirect (countArg : Option String) (content : String) : String :=
  cmdTailLines content (lineCountArg countArg)

/-!
## OPFS rename with rollback (`OPFSFileSystem.renameFile`)

The file store is a flat association list of path/content pairs.
OPFS-level delete failures are injected through the `failDelete` oracle
(`some msg` = `removeEntry` throws with that message); this stands for the
browser-level failures the catch blocks of `renameFile` handle.  The
function returns the resulting store state together with the surfaced
error, mirroring that a thrown error leaves the store as it was at the
throw point.
-/

/-- The modelled file store. -/
abbrev FS := List (String × String)

/-- Content lookup: `readFile` succeeds exactly on present paths. -/
def fsLookup (fs : FS) (p : String) : Option String :=
  (fs.find? (fun e => e.1 == p)).map (fun e => e.2)

/-- `createFile`: overwrite the entry if present, append it otherwise. -/
def fsSet (fs : FS) (p c : String) : FS :=
  if fs.any (fun e => e.1 == p) then
    fs.map (fun e => if e.1 == p then (p, c) else e)
  else fs ++ [(p, c)]

/-- Successful `deleteFile`: remove every entry at the path. -/
def fsRemove (fs : FS) (p : String) : FS :=
  fs.filter (fun e => !(e.1 == p))

/-- `OPFSFileSystem.renameFile`: read the source, create the copy, delete
the source; if that delete throws, best-effort delete the just-created
copy (its own failure swallowed) and surface the original failure. -/
def renameFile (failDelete : String → Option String) (fs : FS)
    (oldPath newPath : String) : FS × Option String :=
  match fsLookup fs oldPath with
  | none => (fs, some ("read failed: " ++ oldPath))
  | some content =>
    let fs1 := fsSet fs newPath content
    match failDelete oldPath with
    | none => (fsRemove fs1 oldPath, none)
    | some msg =>
      let fs2 :=
        match failDelete newPath with
        | none => fsRemove fs1 newPath
        | some _ => fs1
      (fs2,
        some ("Failed to complete rename: could not delete original file \""
          ++ oldPath ++ "\". Error: " ++ msg))

/-!
## Line editor (`TerminalManager.handleInput`)
-/

/-- The editor-relevant state of `TerminalManager`. -/
structure EditorState where
  currentLine : List Char
  cursorPosition : Nat
  commandHistory : List String
  historyIndex : Int
deriving DecidableEq

/-- The input events `handleInput` dispatches on. -/
inductive Key
  | enter
  | backspace
  | up
  | down
  | right
  | left
  | ctrlA
  | ctrlE
  | ctrlC
  | ctrlL
  | char (c : Char)
deriving DecidableEq

/-- `data >= ' ' && data <= '~'`. -/
def printable (c : Char) : Bool := 32 ≤ c.toNat && c.toNat ≤ 126

/-- `commandHistory[i] || ''` with a JavaScript (possibly negative or
out-of-range) index. -/
def histGet (h : List String) (i : Int) : String :=
  if i < 0 then "" else ((h.get? i.toNat).getD "")

/-- `TerminalManager.replaceCurrentLine`. -/
def replaceCurrentLine (s : EditorState) (l : String) : EditorState :=
  { s with cursorPosition := l.data.length, currentLine := l.data }

/-- `TerminalManager.handleInput`, one event at a time.  Enter folds in
the synchronous state effects of `executeCommand` (history append and
history-index reset for a non-empty trimmed line). -/
def handleInput (s : EditorState) : Key → EditorState
  | .enter =>
    let t : String := ⟨jsTrim s.currentLine⟩
    if t == "" then { s with currentLine := [], cursorPosition := 0 }
    else
      { s with currentLine := [], cursorPosition := 0,
               commandHistory := s.commandHistory ++ [t], historyIndex := -1 }
  | .backspace =>
    if 0 < s.cursorPosition then
      { s with
        currentLine := s.currentLine.take (s.cursorPosition - 1)
          ++ s.currentLine.drop s.cursorPosition,
        cursorPosition := s.cursorPosition - 1 }
    else s
  | .up =>
    if s.historyIndex < (s.commandHistory.length : Int) - 1 then
      let i := s.historyIndex + 1
      replaceCurrentLine { s with historyIndex := i }
        (histGet s.commandHistory ((s.commandHistory.length : Int) - 1 - i))
    else s
  | .down =>
    if 0 < s.historyIndex then
      let i := s.historyIndex - 1
      replaceCurrentLine { s with historyIndex := i }
        (histGet s.commandHistory ((s.commandHistory.length : Int) - 1 - i))
    else if s.historyIndex == 0 then
      replaceCurrentLine { s with historyIndex := -1 } ""
    else s
  | .right =>
    if s.cursorPosition < s.currentLine.length then
      { s with cursorPosition := s.cursorPosition + 1 }
    else s
  | .left =>
    if 0 < s.cursorPosition then { s with cursorPosition := s.cursorPosition - 1 }
    else s
  | .ctrlA =>
    if 0 < s.cursorPosition then { s with cursorPosition := 0 } else s
  | .ctrlE =>
    if s.cursorPosition < s.currentLine.length then
      { s with cursorPosition := s.currentLine.length }
    else s
  | .ctrlC => { s with currentLine := [], cursorPosition := 0 }
  | .ctrlL => s
  | .char c =>
    if printable c then
      { s with
        currentLine := s.currentLine.take s.cursorPosition
          ++ [c] ++ s.currentLine.drop s.cursorPosition,
        cursorPosition := s.cursorPosition + 1 }
    else s

/-- The cursor invariant of the editor state. -/
def editorInv (s : EditorState) : Prop :=
  s.cursorPosition ≤ s.currentLine.length

instance (s : EditorState) : Decidable (editorInv s) :=
  inferInstanceAs (Decidable (_ ≤ _))

/-!
## Spec-level whitespace normalization
-/

/-- Modelled from the spec: the "normalized (collapsed-whitespace) input"
of Testable Properties — the space/tab-delimited words of the line, to be
rejoined with single spaces (the tokenizer's whitespace set is space and
tab). -/
def wsWordsAux (cur : List Char) : List Char → List (List Char)
  | [] => if cur.isEmpty then [] else [cur]
  | c :: rest =>
    if c == ' ' || c == '\t' then
      if cur.isEmpty then wsWordsAux [] rest
      else cur :: wsWordsAux [] rest
    else wsWordsAux (cur ++ [c]) rest

/-- Modelled from the spec: collapsed-whitespace normalization — the
words rejoined with one space. -/
def normalizeWs (s : String) : String :=
  joinWith " " ((wsWordsAux [] s.data).map (fun l => (⟨l⟩ : String)))

/-!
## Characterization vocabulary for the wc flag family
-/

/-- One of the three mutually related count-selection flags of wc. -/
inductive CFlag
  | l
  | w
  | c
deriving DecidableEq

/-- Which count-selection flag (if any) a token is, with the spellings of
`wc.parseArgs`. -/
def flagOf (a : String) : Option CFlag :=
  if a == "-l" || a == "--lines" then some .l
  else if a == "-w" || a == "--words" then some .w
  else if a == "-c" || a == "--chars" || a == "-m" then some .c
  else none

/-- The count-selection flags of an argument list, in scan order. -/
def countFlagsOf (args : List String) : List CFlag := args.filterMap flagOf

/-- Final `countLines` value: some `-l` was seen (a later `-w`/`-c` never
clears it). -/
def wantLines (fl : List CFlag) : Bool := fl.any (fun f => f == CFlag.l)

/-- The flags after the last `-l` (every `-l` re-clears the other two),
in reverse order, which is irrelevant for membership. -/
def afterLastL (fl : List CFlag) : List CFlag :=
  fl.reverse.takeWhile (fun f => !(f == CFlag.l))

/-- Final `countWords` value: a `-w` occurs after the last `-l`. -/
def wantWords (fl : List CFlag) : Bool := (afterLastL fl).any (fun f => f == CFlag.w)

/-- Final `countChars` value: a `-c` occurs after the last `-l`. -/
def wantChars (fl : List CFlag) : Bool := (afterLastL fl).any (fun f => f == CFlag.c)

/-!
## Concrete handlers used to instantiate the executor and rename theorems
-/

/-- A sample stage handler: the stage "bad" fails with error "boom",
every other stage succeeds and outputs its own name. -/
def sampleRun : String → Option String → CommandResult :=
  fun c _ => if c == "bad" then ⟨false, "", some "boom"⟩ else ⟨true, c ++ "!", none⟩

/-- A sample delete-failure oracle: deleting "a.txt" throws "boom". -/
def sampleFailDelete : String → Option String :=
  fun p => if p == "a.txt" then some "boom" else none

/-!
# Theorems
-/

/-- Claim C1, counterexample: the standalone `parsePipeCommand` splits
the line `grep "a|b" f.txt` at the pipe even though the pipe is inside a
double-quoted span — the second stage starts at `b"`, so parsing reports
an unknown command `b"` instead of a single grep stage with pattern
`a|b`.  A quoted pipe therefore does produce a stage boundary in
`parsePipeCommand`, refuting the claim for that parser. -/
theorem pipeParser_splits_at_quoted_pipe :
    parsePipeCommand "grep \"a|b\" f.txt"
      = ⟨true, [], some "Unknown command: b\""⟩ ∧
    (parsePipeCommand "grep \"a|b\" f.txt").commands.length ≠ 1 := by
  decide

/-- Claim C4, counterexample: on the flag sequence `-w -l`, the `-w` flag
(the first of the family) sets `countWords` true; the claim says the
subsequent `-l` only sets its own field, leaving `countWords` true, but
`wc.parseArgs` re-clears it — the final record has `countWords = false`. -/
theorem wc_later_lines_flag_reclears :
    (wcParseArgs ["-w", "-l"]).countWords = some false ∧
    (wcParseArgs ["-w", "-l"]).countLines = some true ∧
    (wcParseArgs ["-w", "-l"]).countChars = some false := by
  decide

/-- Claim C5: the grep handlers build one global (`g` flag) regex and
call `.test` on every line inside a filter, so `lastIndex` persists
across lines.  On pattern "a" and stdin `aa\naa\naa` every line matches
(the pattern occurs at index 0 of each line), yet the filter keeps only
the first two lines: testing the third line starts at `lastIndex = 2`,
finds nothing, and the line is dropped.  The pipe-mode output therefore
has 2 lines where the claim requires one output line per matching line
(3). -/
theorem grep_global_regex_state_bug :
    jsFindFrom "a".data "aa".data 0 = some 0 ∧
    grepFilterAux "a".data 0 ["aa".data, "aa".data, "aa".data]
      = ["aa".data, "aa".data] ∧
    (splitCharAux '\n' [] (cmdGrepPipe "a" "aa\naa\naa").output.data).length = 2 ∧
    (cmdGrepDirect "b" "xb\nyc").output = "\x1b[1;33m1:\x1b[0m x\x1b[1;31mb\x1b[0m" := by
  decide

/-- Claim C6, counterexample: the count `-5` is non-positive, but
`parseInt("-5") || 10` keeps `-5` (only NaN and 0 are falsy), and
`slice(0, -5)` / `slice(5)` then cut from the other end: on a 7-line
input, head returns the first 2 lines and tail the last 2 — not the
first/last 10 lines the claim requires for a non-positive count. -/
theorem negative_head_count_not_defaulted :
    lineCountArg (some "-5") = -5 ∧
    runHeadDirect (some "-5") "l1\nl2\nl3\nl4\nl5\nl6\nl7" = "l1\nl2" ∧
    runTailDirect (some "-5") "l1\nl2\nl3\nl4\nl5\nl6\nl7" = "l6\nl7" ∧
    runHeadDirect (some "-5") "l1\nl2\nl3\nl4\nl5\nl6\nl7"
      ≠ runHeadDirect none "l1\nl2\nl3\nl4\nl5\nl6\nl7" := by
  decide

/-- Claim C9, counterexample: tokenizing the two-character input `""`
with the original shell-command tokenizer (`TerminalManager.parseCommand`)
yields NO token — its final push is guarded by string truthiness, so the
empty quoted token is dropped, not kept as an empty-string token as the
claim states. -/
theorem empty_quoted_token_dropped_by_shell_variant :
    parseCommandTokens "\"\"" = [] ∧ parseCommandTokens "\"\"" ≠ [""] := by
  decide

/-- Claim C10: every input event of the line editor preserves
`0 ≤ cursorPosition ≤ currentLine.length`, and out-of-range navigation
(left arrow at cursor 0, right arrow at cursor = line length) leaves the
state unchanged. -/
theorem editor_cursor_invariant (s : EditorState) (k : Key) (h : editorInv s) :
    editorInv (handleInput s k) ∧
    (s.cursorPosition = 0 → handleInput s Key.left = s) ∧
    (s.cursorPosition = s.currentLine.length → handleInput s Key.right = s) := by
  simp only [editorInv] at h
  refine ⟨?_, ?_, ?_⟩
  · cases k with
    | enter =>
      simp only [handleInput]
      split <;> simp [editorInv]
    | backspace =>
      simp only [handleInput]
      split
      · simp only [editorInv, List.length_append, List.length_take, List.length_drop]
        omega
      · simpa [editorInv] using h
    | up =>
      simp only [handleInput]
      split
      · simp [editorInv, replaceCurrentLine]
      · simpa [editorInv] using h
    | down =>
      simp only [handleInput]
      split
      · simp [editorInv, replaceCurrentLine]
      · split
        · simp [editorInv, replaceCurrentLine]
        · simpa [editorInv] using h
    | right =>
      simp only [handleInput]
      split
      · simp only [editorInv]
        omega
      · simpa [editorInv] using h
    | left =>
      simp only [handleInput]
      split
      · simp only [editorInv]
        omega
      · simpa [editorInv] using h
    | ctrlA =>
      simp only [handleInput]
      split
      · simp [editorInv]
      · simpa [editorInv] using h
    | ctrlE =>
      simp only [handleInput]
      split
      · simp [editorInv]
      · simpa [editorInv] using h
    | ctrlC => simp [handleInput, editorInv]
    | ctrlL => simpa [handleInput, editorInv] using h
    | char c =>
      simp only [handleInput]
      split
      · simp only [editorInv, List.length_append, List.length_take,
          List.length_drop, List.length_cons]
        omega
      · simpa [editorInv] using h
  · intro h0
    simp [handleInput, h0]
  · intro h0
    simp [handleInput, h0]

/-- Witness for C10: the invariant theorem applied to a concrete state
and a backspace event. -/
theorem editor_cursor_invariant_witness :
    editorInv (handleInput ⟨['a', 'b'], 1, [], -1⟩ Key.backspace) :=
  (editor_cursor_invariant ⟨['a', 'b'], 1, [], -1⟩ Key.backspace (by decide)).1

/-- A pipeline over at least one stage produces a nonempty trace. -/
theorem execChainAux_trace_ne (run : String → Option String → CommandResult)
    (stdin : Option String) (c : String) (rest : List String) :
    (execChainAux run stdin (c :: rest)).1 ≠ [] := by
  simp only [execChainAux]
  split <;> simp

/-- Structure of the executor loop, for an arbitrary initial stdin: the
trace is an initial segment of the stage list in order; the first executed
stage receives the initial stdin; a successful stage's output becomes the
next stage's stdin; a failed stage is the last one executed and its error
is the surfaced outcome; after a success, the next stage (if any remains)
is executed. -/
theorem execChainAux_spec (run : String → Option String → CommandResult) :
    ∀ (stages : List String) (stdin : Option String),
      ((execChainAux run stdin stages).1.map Prod.fst
        = stages.take (execChainAux run stdin stages).1.length) ∧
      (∀ p, (execChainAux run stdin stages).1.get? 0 = some p → p.2 = stdin) ∧
      (∀ i p q, (execChainAux run stdin stages).1.get? i = some p →
          (execChainAux run stdin stages).1.get? (i + 1) = some q →
          (run p.1 p.2).success = true ∧ q.2 = some (run p.1 p.2).output) ∧
      (∀ i p, (execChainAux run stdin stages).1.get? i = some p →
          (run p.1 p.2).success = false →
          (execChainAux run stdin stages).1.length = i + 1 ∧
          (execChainAux run stdin stages).2 = .failed (run p.1 p.2).error) ∧
      (∀ i p, (execChainAux run stdin stages).1.get? i = some p →
          (run p.1 p.2).success = true → i + 1 < stages.length →
          i + 1 < (execChainAux run stdin stages).1.length) := by
  intro stages
  induction stages with
  | nil =>
    intro stdin
    simp [execChainAux]
  | cons cmd rest ih =>
    intro stdin
    by_cases hs : (run cmd stdin).success = true
    · have E : execChainAux run stdin (cmd :: rest)
          = ((cmd, stdin) :: (execChainAux run (some (run cmd stdin).output) rest).1,
             (execChainAux run (some (run cmd stdin).output) rest).2) := by
        simp [execChainAux, hs]
      obtain ⟨ih1, ih2, ih3, ih4, ih5⟩ := ih (some (run cmd stdin).output)
      rw [E]
      refine ⟨?_, ?_, ?_, ?_, ?_⟩
      · simpa using ih1
      · intro p hp
        simp only [List.get?_cons_zero, Option.some.injEq] at hp
        rw [← hp]
      · intro i p q hp hq
        cases i with
        | zero =>
          simp only [List.get?_cons_zero, Option.some.injEq] at hp
          simp only [List.get?_cons_succ] at hq
          subst hp
          exact ⟨hs, ih2 q hq⟩
        | succ n =>
          simp only [List.get?_cons_succ] at hp hq
          exact ih3 n p q hp hq
      · intro i p hp hf
        cases i with
        | zero =>
          simp only [List.get?_cons_zero, Option.some.injEq] at hp
          subst hp
          rw [hs] at hf
          cases hf
        | succ n =>
          simp only [List.get?_cons_succ] at hp
          obtain ⟨hl, ho⟩ := ih4 n p hp hf
          simp [hl, ho]
      · intro i p hp hsucc hlt
        cases i with
        | zero =>
          cases rest with
          | nil => simp at hlt
          | cons r rs =>
            have := execChainAux_trace_ne run (some (run cmd stdin).output) r rs
            have : 0 < (execChainAux run (some (run cmd stdin).output) (r :: rs)).1.length :=
              List.length_pos.mpr this
            simp only [List.length_cons]
            omega
        | succ n =>
          simp only [List.get?_cons_succ] at hp
          simp only [List.length_cons] at hlt ⊢
          have := ih5 n p hp hsucc (by omega)
          omega
    · have E : execChainAux run stdin (cmd :: rest)
          = ([(cmd, stdin)], .failed (run cmd stdin).error) := by
        simp [execChainAux, hs]
      rw [E]
      refine ⟨?_, ?_, ?_, ?_, ?_⟩
      · simp
      · intro p hp
        simp only [List.get?_cons_zero, Option.some.injEq] at hp
        rw [← hp]
      · intro i p q hp hq
        cases i with
        | zero => simp at hq
        | succ n => simp at hp
      · intro i p hp hf
        cases i with
        | zero =>
          simp only [List.get?_cons_zero, Option.some.injEq] at hp
          subst hp
          exact ⟨rfl, rfl⟩
        | succ n => simp at hp
      · intro i p hp hsucc hlt
        cases i with
        | zero =>
          simp only [List.get?_cons_zero, Option.some.injEq] at hp
          subst hp
          exact absurd hsucc hs
        | succ n => simp at hp

/-- Claim C2: in `executeCommand`'s pipeline loop, the executed stages
form an initial segment of the pipeline in order; the first stage
receives no stdin; when a stage succeeds its output is the stdin passed
to the next stage (which is executed if any stage remains); when a stage
fails the loop halts immediately — that stage is the last one in the
execution trace — and the stage's error is the surfaced outcome. -/
theorem pipeline_execution_threading
    (run : String → Option String → CommandResult) (stages : List String) :
    ((executePipeline run stages).1.map Prod.fst
      = stages.take (executePipeline run stages).1.length) ∧
    (∀ p, (executePipeline run stages).1.get? 0 = some p → p.2 = none) ∧
    (∀ i p q, (executePipeline run stages).1.get? i = some p →
        (executePipeline run stages).1.get? (i + 1) = some q →
        (run p.1 p.2).success = true ∧ q.2 = some (run p.1 p.2).output) ∧
    (∀ i p, (executePipeline run stages).1.get? i = some p →
        (run p.1 p.2).success = false →
        (executePipeline run stages).1.length = i + 1 ∧
        (executePipeline run stages).2 = .failed (run p.1 p.2).error) ∧
    (∀ i p, (executePipeline run stages).1.get? i = some p →
        (run p.1 p.2).success = true → i + 1 < stages.length →
        i + 1 < (executePipeline run stages).1.length) :=
  execChainAux_spec run stages none

/-- Witness for C2: the threading theorem applied to a concrete handler
and pipeline whose second stage fails — the trace stops after two stages
and the outcome carries the failing stage's error. -/
theorem pipeline_execution_threading_witness :
    (executePipeline sampleRun ["a", "bad", "c"]).1.length = 2 ∧
    (executePipeline sampleRun ["a", "bad", "c"]).2 = .failed (some "boom") := by
  have h := (pipeline_execution_threading sampleRun ["a", "bad", "c"]).2.2.2.1
  have h2 := h 1 ("bad", some "a!") (by decide) (by decide)
  exact ⟨h2.1, h2.2⟩

/-- Claim C3: parsing `cat | grep pattern` yields a pipeline-true result
with zero commands and the "requires a file path" error; and in general,
whenever the line classifies as a pipe command, all segments parse, and
the first parsed stage's canonical verb is cat, read_file or grep with
neither a (truthy) scalar path nor a path list in its argument record,
`parsePipeCommand` returns `isPipeCommand = true`, no commands, and that
error — all decided at parse time. -/
theorem first_stage_requires_path :
    parsePipeCommand "cat | grep pattern"
      = ⟨true, [], some "First command (cat) requires a file path"⟩ ∧
    ∀ (input : String) (cmds : List PipeCommand) (c : PipeCommand),
      isPipeCmdSyn (jsTrimStr input) = true →
      parseSegments (splitSegments (jsTrimStr input)) = .ok cmds →
      cmds.head? = some c →
      c.tool ∈ ["cat", "read_file", "grep"] →
      pathTruthy c.args = false →
      pathsTruthy c.args = false →
      parsePipeCommand input
        = ⟨true, [], some ("First command (" ++ c.tool ++ ") requires a file path")⟩ := by
  constructor
  · decide
  · intro input cmds c h1 h2 h3 h4 h5 h6
    obtain ⟨tl, rfl⟩ : ∃ tl, cmds = c :: tl := by
      cases cmds with
      | nil => simp at h3
      | cons a tl =>
        simp only [List.head?_cons, Option.some.injEq] at h3
        exact ⟨tl, by rw [h3]⟩
    have hne : (splitSegments (jsTrimStr input)).isEmpty = false := by
      cases he : splitSegments (jsTrimStr input) with
      | nil => rw [he] at h2; simp [parseSegments] at h2
      | cons a l => simp
    have hval : validateFirst (c :: tl)
        = some ("First command (" ++ c.tool ++ ") requires a file path") := by
      simp only [List.mem_cons, List.not_mem_nil, or_false] at h4
      rcases h4 with h | h | h <;>
        simp [validateFirst, h, h5, h6, List.contains, List.elem]
    simp only [parsePipeCommand, h1, Bool.not_true, Bool.false_eq_true,
      if_false, hne, h2, hval]

/-- Witness for C3: the general theorem applied to `grep -i | sort`,
whose first stage is grep with a flag but no pattern or path. -/
theorem first_stage_requires_path_witness :
    parsePipeCommand "grep -i | sort"
      = ⟨true, [], some "First command (grep) requires a file path"⟩ := by
  have h := first_stage_requires_path.2 "grep -i | sort"
    [⟨"grep", { caseInsensitive := some true }⟩, ⟨"sort", {}⟩]
    ⟨"grep", { caseInsensitive := some true }⟩
    (by decide) (by decide) (by decide) (by decide) (by decide) (by decide)
  exact h

/-- Claim C6 (amended): head and tail use count 10 when none is supplied;
a non-numeric or zero supplied count falls back to 10 (NaN and 0 are
falsy); but a negative supplied count is kept as-is and handed to
`slice`, it is NOT replaced by the default.  With the default, head takes
the first 10 lines and tail the last 10. -/
theorem head_tail_count_amended :
    lineCountArg none = 10 ∧
    (∀ s, jsParseInt (jsOr10 (some s)) = none → lineCountArg (some s) = 10) ∧
    (∀ s, jsParseInt (jsOr10 (some s)) = some 0 → lineCountArg (some s) = 10) ∧
    (∀ s n, jsParseInt (jsOr10 (some s)) = some n → n ≠ 0 → lineCountArg (some s) = n) ∧
    (∀ l : List String, jsSliceZeroTo l 10 = l.take 10) ∧
    (∀ l : List String, jsSliceFrom l (-10) = l.drop (l.length - 10)) := by
  refine ⟨by decide, ?_, ?_, ?_, ?_, ?_⟩
  · intro s hs
    simp [lineCountArg, hs]
  · intro s hs
    simp [lineCountArg, hs]
  · intro s n hs hn
    simp [lineCountArg, hs, hn]
  · intro l
    simp [jsSliceZeroTo]
  · intro l
    simp [jsSliceFrom]

/-- Witness for C6: the amended count rule at a non-numeric, a zero and a
negative concrete count. -/
theorem head_tail_count_amended_witness :
    lineCountArg (some "abc") = 10 ∧ lineCountArg (some "0") = 10 ∧
    lineCountArg (some "-5") = -5 :=
  ⟨head_tail_count_amended.2.1 "abc" (by decide),
   head_tail_count_amended.2.2.1 "0" (by decide),
   head_tail_count_amended.2.2.2.1 "-5" (-5) (by decide) (by decide)⟩

/-- Replacing the entries at key `q` does not change lookups at a
different key. -/
theorem fsLookup_map_replace (q c p : String) (h : p ≠ q) (fs : FS) :
    fsLookup (fs.map (fun e => if e.1 == q then (q, c) else e)) p = fsLookup fs p := by
  induction fs with
  | nil => rfl
  | cons e rest ih =>
    by_cases he : e.1 == q
    · have heq : e.1 = q := by simpa using he
      have hqp : (q == p) = false := by simp [Ne.symm h]
      have hep : (e.1 == p) = false := by simp [heq, Ne.symm h]
      simp [fsLookup, List.find?, he, hqp, hep] at ih ⊢
      exact ih
    · simp only [List.map_cons, he, if_false]
      by_cases hep : e.1 == p
      · simp [fsLookup, List.find?, hep]
      · simp [fsLookup, List.find?, hep] at ih ⊢
        exact ih

/-- Appending an entry at key `q` does not change lookups at a different
key. -/
theorem fsLookup_append_single (q c p : String) (h : p ≠ q) (fs : FS) :
    fsLookup (fs ++ [(q, c)]) p = fsLookup fs p := by
  induction fs with
  | nil =>
    have hqp : (q == p) = false := by simp [Ne.symm h]
    simp [fsLookup, List.find?, hqp]
  | cons e rest ih =>
    by_cases hep : e.1 == p
    · simp [fsLookup, List.find?, hep]
    · simp [fsLookup, List.find?, hep] at ih ⊢
      exact ih

/-- After `fsRemove fs p` the path `p` is absent. -/
theorem fsLookup_remove_self (p : String) (fs : FS) :
    fsLookup (fsRemove fs p) p = none := by
  induction fs with
  | nil => rfl
  | cons e rest ih =>
    by_cases he : e.1 == p
    · simp only [fsRemove, List.filter, he, Bool.not_true] at ih ⊢
      exact ih
    · simp only [fsRemove, fsLookup, List.filter, List.find?, he, Bool.not_false] at ih ⊢
      exact ih

/-- Removing key `q` does not change lookups at a different key. -/
theorem fsLookup_remove_ne (p q : String) (h : p ≠ q) (fs : FS) :
    fsLookup (fsRemove fs q) p = fsLookup fs p := by
  induction fs with
  | nil => rfl
  | cons e rest ih =>
    by_cases he : e.1 == q
    · have hep : (e.1 == p) = false := by
        have : e.1 = q := by simpa using he
        simp [this, Ne.symm h]
      simpa [fsRemove, fsLookup, List.filter, List.find?, he, hep] using ih
    · by_cases hep : e.1 == p
      · simp [fsRemove, fsLookup, List.filter, List.find?, he, hep]
      · simpa [fsRemove, fsLookup, List.filter, List.find?, he, hep] using ih

/-- `fsSet fs q c` does not change lookups at a different key. -/
theorem fsLookup_set_ne (p q c : String) (h : p ≠ q) (fs : FS) :
    fsLookup (fsSet fs q c) p = fsLookup fs p := by
  by_cases ha : fs.any (fun e => e.1 == q)
  · simp only [fsSet]
    rw [if_pos ha]
    exact fsLookup_map_replace q c p h fs
  · simp only [fsSet]
    rw [if_neg ha]
    exact fsLookup_append_single q c p h fs

/-- Claim C7: whenever the copy step of `renameFile` succeeds (the source
is readable) but the delete of the source fails, the function surfaces
the original delete failure; when the best-effort rollback delete of the
destination succeeds, the destination is gone and the source still holds
its content; when the rollback delete itself fails, that failure is
swallowed — the store keeps the copied state and the reported error is
still the original delete failure. -/
theorem rename_rollback_on_delete_failure
    (failDelete : String → Option String) (fs : FS)
    (oldPath newPath content msg : String)
    (hread : fsLookup fs oldPath = some content)
    (hfail : failDelete oldPath = some msg) :
    (renameFile failDelete fs oldPath newPath).2
      = some ("Failed to complete rename: could not delete original file \""
          ++ oldPath ++ "\". Error: " ++ msg) ∧
    (failDelete newPath = none →
      fsLookup (renameFile failDelete fs oldPath newPath).1 newPath = none ∧
      fsLookup (renameFile failDelete fs oldPath newPath).1 oldPath = some content) ∧
    (∀ m2, failDelete newPath = some m2 →
      (renameFile failDelete fs oldPath newPath).1 = fsSet fs newPath content) := by
  refine ⟨?_, ?_, ?_⟩
  · simp [renameFile, hread, hfail]
  · intro hnew
    have hne : oldPath ≠ newPath := by
      intro he
      rw [he, hnew] at hfail
      cases hfail
    constructor
    · simp [renameFile, hread, hfail, hnew, fsLookup_remove_self]
    · simp only [renameFile, hread, hfail, hnew]
      rw [fsLookup_remove_ne oldPath newPath hne,
        fsLookup_set_ne oldPath newPath content hne]
      exact hread
  · intro m2 hnew
    simp [renameFile, hread, hfail, hnew]

/-- Witness for C7: the rollback theorem at a concrete store where
deleting the source "a.txt" fails — the destination copy is rolled back,
the source keeps its content, and the original failure is reported. -/
theorem rename_rollback_witness :
    (renameFile sampleFailDelete [("a.txt", "hi")] "a.txt" "b.txt").2
      = some "Failed to complete rename: could not delete original file \"a.txt\". Error: boom" ∧
    fsLookup (renameFile sampleFailDelete [("a.txt", "hi")] "a.txt" "b.txt").1 "b.txt" = none ∧
    fsLookup (renameFile sampleFailDelete [("a.txt", "hi")] "a.txt" "b.txt").1 "a.txt"
      = some "hi" := by
  have h := rename_rollback_on_delete_failure sampleFailDelete [("a.txt", "hi")]
    "a.txt" "b.txt" "hi" "boom" (by decide) (by decide)
  have h2 := h.2.1 (by decide)
  exact ⟨h.1, h2.1, h2.2⟩

/-- Every token the pipeline tokenizer emits is nonempty: both push sites
are guarded by the truthiness of the pending token. -/
theorem tokenizeAux_mem_ne_nil :
    ∀ (l : List Char) (q : Option Char) (cur : List Char) (t : List Char),
      t ∈ tokenizeAux q cur l → t ≠ [] := by
  intro l
  induction l with
  | nil =>
    intro q cur t ht
    by_cases hc : cur.isEmpty
    · simp [tokenizeAux, hc] at ht
    · simp only [Bool.not_eq_true] at hc
      simp only [tokenizeAux, hc, Bool.false_eq_true, if_false, List.mem_singleton] at ht
      subst ht
      intro hn
      rw [hn] at hc
      simp at hc
  | cons c rest ih =>
    intro q cur t ht
    cases q with
    | some qc =>
      by_cases hq : (c == qc) = true
      · simp only [tokenizeAux, hq, if_true] at ht
        exact ih none cur t ht
      · simp only [Bool.not_eq_true] at hq
        simp only [tokenizeAux, hq, Bool.false_eq_true, if_false] at ht
        exact ih (some qc) (cur ++ [c]) t ht
    | none =>
      by_cases hquote : (c == dq || c == sq) = true
      · simp only [tokenizeAux, hquote, if_true] at ht
        exact ih (some c) cur t ht
      · simp only [Bool.not_eq_true] at hquote
        by_cases hsp : (c == ' ' || c == '\t') = true
        · by_cases hce : cur.isEmpty
          · simp only [tokenizeAux, hquote, Bool.false_eq_true, if_false, hsp,
              if_true, hce] at ht
            exact ih none [] t ht
          · simp only [Bool.not_eq_true] at hce
            simp only [tokenizeAux, hquote, Bool.false_eq_true, if_false, hsp,
              if_true, hce, List.mem_cons] at ht
            rcases ht with ht | ht
            · subst ht
              intro hn
              rw [hn] at hce
              simp at hce
            · exact ih none [] t ht
        · simp only [Bool.not_eq_true] at hsp
          simp only [tokenizeAux, hquote, hsp, Bool.false_eq_true, if_false] at ht
          exact ih none (cur ++ [c]) t ht

/-- On quote-free input the pipeline tokenizer coincides with the
spec-level whitespace splitter. -/
theorem tokenizeAux_eq_wsWords :
    ∀ (l : List Char) (cur : List Char),
      (∀ c ∈ l, c ≠ dq ∧ c ≠ sq) →
      tokenizeAux none cur l = wsWordsAux cur l := by
  intro l
  induction l with
  | nil => intro cur _; rfl
  | cons c rest ih =>
    intro cur h
    obtain ⟨h1, h2⟩ := h c (List.mem_cons_self c rest)
    have hr : ∀ x ∈ rest, x ≠ dq ∧ x ≠ sq :=
      fun x hx => h x (List.mem_cons_of_mem c hx)
    have hd : (c == dq) = false := by simp [h1]
    have hs : (c == sq) = false := by simp [h2]
    by_cases hsp : (c == ' ' || c == '\t') = true
    · by_cases hce : cur.isEmpty
      · simp only [tokenizeAux, wsWordsAux, hd, hs, Bool.or_self,
          Bool.false_eq_true, if_false, hsp, if_true, hce]
        exact ih [] hr
      · simp only [Bool.not_eq_true] at hce
        simp only [tokenizeAux, wsWordsAux, hd, hs, Bool.or_self,
          Bool.false_eq_true, if_false, hsp, if_true, hce]
        rw [ih [] hr]
    · simp only [Bool.not_eq_true] at hsp
      simp only [tokenizeAux, wsWordsAux, hd, hs, Bool.or_self,
        Bool.false_eq_true, if_false, hsp]
      exact ih (cur ++ [c]) hr

/-- Claim C8: for input without quote characters, tokenizing and
rejoining the tokens with single spaces is exactly the collapsed-
whitespace normalization of the input; no empty token is ever emitted,
and the empty input yields no tokens. -/
theorem tokenize_quote_free_normalizes :
    tokenize "" = [] ∧
    ∀ s : String, (∀ c ∈ s.data, c ≠ dq ∧ c ≠ sq) →
      joinWith " " (tokenize s) = normalizeWs s ∧ "" ∉ tokenize s := by
  refine ⟨by decide, ?_⟩
  intro s h
  constructor
  · unfold tokenize normalizeWs
    rw [tokenizeAux_eq_wsWords s.data [] h]
  · unfold tokenize
    intro hmem
    obtain ⟨t, ht, hteq⟩ := List.mem_map.mp hmem
    have hTnil : t = [] := by
      have := congrArg String.data hteq
      simpa using this
    exact tokenizeAux_mem_ne_nil s.data none [] t ht hTnil

/-- Witness for C8: the round trip at a concrete quote-free input with
leading, trailing and doubled spaces. -/
theorem tokenize_quote_free_normalizes_witness :
    joinWith " " (tokenize "  cat   file.txt ") = normalizeWs "  cat   file.txt " :=
  (tokenize_quote_free_normalizes.2 "  cat   file.txt " (by decide)).1

/-- The shell-variant scanner agrees with the pipeline scanner on every
input without tab characters (the only difference between the two is that
the pipeline variant also splits on tab). -/
theorem parseCmdAux_eq_tokenizeAux :
    ∀ (l : List Char) (q : Option Char) (cur : List Char),
      (∀ c ∈ l, c ≠ '\t') →
      parseCmdAux q cur l = tokenizeAux q cur l := by
  intro l
  induction l with
  | nil => intro q cur _; cases q <;> rfl
  | cons c rest ih =>
    intro q cur h
    have h1 : c ≠ '\t' := h c (List.mem_cons_self c rest)
    have hr : ∀ x ∈ rest, x ≠ '\t' := fun x hx => h x (List.mem_cons_of_mem c hx)
    have ht : (c == '\t') = false := by simp [h1]
    cases q with
    | some qc =>
      by_cases hq : (c == qc) = true
      · simp only [parseCmdAux, tokenizeAux, hq, if_true]
        exact ih none cur hr
      · simp only [Bool.not_eq_true] at hq
        simp only [parseCmdAux, tokenizeAux, hq, Bool.false_eq_true, if_false]
        exact ih (some qc) (cur ++ [c]) hr
    | none =>
      by_cases hquote : (c == dq || c == sq) = true
      · simp only [parseCmdAux, tokenizeAux, hquote, if_true]
        exact ih (some c) cur hr
      · simp only [Bool.not_eq_true] at hquote
        by_cases hsp : (c == ' ') = true
        · simp only [parseCmdAux, tokenizeAux, hquote, Bool.false_eq_true, if_false,
            hsp, Bool.true_or, if_true]
          simp only [ih none [] hr]
        · simp only [Bool.not_eq_true] at hsp
          simp only [parseCmdAux, tokenizeAux, hquote, Bool.false_eq_true, if_false,
            hsp, Bool.false_or, ht]
          exact ih none (cur ++ [c]) hr

/-- Claim C9 (amended): both tokenizer variants drop a token produced
entirely from quotes — tokenizing `""` yields NO token in the original
shell-command variant exactly as in the pipeline variant; indeed the two
variants produce identical token lists on every input without tab
characters (tab handling is their only difference). -/
theorem tokenizer_variants_agree :
    parseCommandTokens "\"\"" = [] ∧ tokenize "\"\"" = [] ∧
    ∀ s : String, (∀ c ∈ s.data, c ≠ '\t') → parseCommandTokens s = tokenize s := by
  refine ⟨by decide, by decide, ?_⟩
  intro s h
  unfold parseCommandTokens tokenize
  rw [parseCmdAux_eq_tokenizeAux s.data none [] h]

/-- Witness for C9: the two tokenizers agree on a concrete tab-free line
with an empty quoted token in the middle. -/
theorem tokenizer_variants_agree_witness :
    parseCommandTokens "cat \"\" file.txt" = tokenize "cat \"\" file.txt" :=
  tokenizer_variants_agree.2.2 "cat \"\" file.txt" (by decide)

/-- A later `-l` makes the whole flag history before it irrelevant for
`-w`/`-c`. -/
theorem afterLastL_append_l (fl : List CFlag) : afterLastL (fl ++ [CFlag.l]) = [] := by
  simp [afterLastL, List.reverse_append, List.takeWhile_cons]

/-- A trailing `-w` survives in the post-`-l` suffix. -/
theorem afterLastL_append_w (fl : List CFlag) :
    afterLastL (fl ++ [CFlag.w]) = CFlag.w :: afterLastL fl := by
  have hwl : (CFlag.w == CFlag.l) = false := rfl
  simp [afterLastL, List.reverse_append, List.takeWhile_cons, hwl]

/-- A trailing `-c` survives in the post-`-l` suffix. -/
theorem afterLastL_append_c (fl : List CFlag) :
    afterLastL (fl ++ [CFlag.c]) = CFlag.c :: afterLastL fl := by
  have hcl : (CFlag.c == CFlag.l) = false := rfl
  simp [afterLastL, List.reverse_append, List.takeWhile_cons, hcl]

/-- Invariant of the `wc.parseArgs` scan, proved from the right end of
the argument list: `hasSpecificFlags` says some count flag was seen, and
the three count fields follow the closed forms `wantLines`, `wantWords`,
`wantChars` of the count-flag subsequence. -/
theorem wcFold_spec (args : List String) :
    ((args.foldl wcStep ({}, false)).2 = !(countFlagsOf args).isEmpty) ∧
    ((args.foldl wcStep ({}, false)).1.countLines
      = if (countFlagsOf args).isEmpty then none
        else some (wantLines (countFlagsOf args))) ∧
    ((args.foldl wcStep ({}, false)).1.countWords
      = if (countFlagsOf args).isEmpty then none
        else some (wantWords (countFlagsOf args))) ∧
    ((args.foldl wcStep ({}, false)).1.countChars
      = if (countFlagsOf args).isEmpty then none
        else some (wantChars (countFlagsOf args))) := by
  induction args using List.reverseRecOn with
  | nil => simp [countFlagsOf]
  | append_singleton l a ih =>
    obtain ⟨ihh, ihl, ihw, ihc⟩ := ih
    have hfold : (l ++ [a]).foldl wcStep ({}, false)
        = wcStep (l.foldl wcStep ({}, false)) a := by
      simp [List.foldl_append]
    have hflags : countFlagsOf (l ++ [a]) = countFlagsOf l ++ (flagOf a).toList := by
      cases hfa0 : flagOf a <;>
        simp [countFlagsOf, List.filterMap_append, List.filterMap_cons, hfa0]
    rcases hpair : l.foldl wcStep ({}, false) with ⟨r, hsf⟩
    rw [hpair] at ihh ihl ihw ihc
    dsimp only at ihh ihl ihw ihc
    rw [hfold, hflags, hpair]
    by_cases h1 : (a == "-l" || a == "--lines") = true
    · have hfa : flagOf a = some CFlag.l := by simp [flagOf, h1]
      rw [hfa]
      have hll : (CFlag.l == CFlag.l) = true := rfl
      simp [wcStep, h1, wantLines, wantWords, wantChars, afterLastL_append_l,
        List.any_append, hll]
    · simp only [Bool.not_eq_true] at h1
      by_cases h2 : (a == "-w" || a == "--words") = true
      · have hfa : flagOf a = some CFlag.w := by simp [flagOf, h1, h2]
        rw [hfa]
        have hwl : (CFlag.w == CFlag.l) = false := rfl
        have hww : (CFlag.w == CFlag.w) = true := rfl
        have hwc : (CFlag.w == CFlag.c) = false := rfl
        have hL : wantLines (countFlagsOf l ++ [CFlag.w]) = wantLines (countFlagsOf l) := by
          simp [wantLines, List.any_append, hwl]
        have hW : wantWords (countFlagsOf l ++ [CFlag.w]) = true := by
          simp [wantWords, afterLastL_append_w, List.any_cons, hww]
        have hC : wantChars (countFlagsOf l ++ [CFlag.w]) = wantChars (countFlagsOf l) := by
          simp [wantChars, afterLastL_append_w, List.any_cons, hwc]
        by_cases hfl : (countFlagsOf l).isEmpty = true
        · have hflnil : countFlagsOf l = [] := by
            cases he : countFlagsOf l with
            | nil => rfl
            | cons x xs => rw [he] at hfl; simp at hfl
          have hhsf : hsf = false := by rw [ihh, hfl]; rfl
          rw [hflnil] at hL hW hC ⊢
          simp [wcStep, h1, h2, hhsf, hL, hW, hC, wantLines, wantChars]
          decide
        · simp only [Bool.not_eq_true] at hfl
          have hhsf : hsf = true := by rw [ihh, hfl]; rfl
          have ihl2 : r.countLines = some (wantLines (countFlagsOf l)) := by
            rw [ihl, hfl]; simp
          have ihc2 : r.countChars = some (wantChars (countFlagsOf l)) := by
            rw [ihc, hfl]; simp
          simp [wcStep, h1, h2, hhsf, hL, hW, hC, ihl2, ihc2]
      · simp only [Bool.not_eq_true] at h2
        by_cases h3 : (a == "-c" || a == "--chars" || a == "-m") = true
        · have hfa : flagOf a = some CFlag.c := by simp [flagOf, h1, h2, h3]
          rw [hfa]
          have hcl : (CFlag.c == CFlag.l) = false := rfl
          have hcw : (CFlag.c == CFlag.w) = false := rfl
          have hcc : (CFlag.c == CFlag.c) = true := rfl
          have hL : wantLines (countFlagsOf l ++ [CFlag.c]) = wantLines (countFlagsOf l) := by
            simp [wantLines, List.any_append, hcl]
          have hW : wantWords (countFlagsOf l ++ [CFlag.c]) = wantWords (countFlagsOf l) := by
            simp [wantWords, afterLastL_append_c, List.any_cons, hcw]
          have hC : wantChars (countFlagsOf l ++ [CFlag.c]) = true := by
            simp [wantChars, afterLastL_append_c, List.any_cons, hcc]
          by_cases hfl : (countFlagsOf l).isEmpty = true
          · have hflnil : countFlagsOf l = [] := by
              cases he : countFlagsOf l with
              | nil => rfl
              | cons x xs => rw [he] at hfl; simp at hfl
            have hhsf : hsf = false := by rw [ihh, hfl]; rfl
            rw [hflnil] at hL hW hC ⊢
            simp [wcStep, h1, h2, h3, hhsf, hL, hW, hC, wantLines, wantWords]
            decide
          · simp only [Bool.not_eq_true] at hfl
            have hhsf : hsf = true := by rw [ihh, hfl]; rfl
            have ihl2 : r.countLines = some (wantLines (countFlagsOf l)) := by
              rw [ihl, hfl]; simp
            have ihw2 : r.countWords = some (wantWords (countFlagsOf l)) := by
              rw [ihw, hfl]; simp
            simp [wcStep, h1, h2, h3, hhsf, hL, hW, hC, ihl2, ihw2]
        · simp only [Bool.not_eq_true] at h3
          have hfa : flagOf a = none := by simp [flagOf, h1, h2, h3]
          rw [hfa]
          by_cases hd : (!(startsDash a)) = true
          · simp [wcStep, h1, h2, h3, hd, ihh, ihl, ihw, ihc]
          · simp only [Bool.not_eq_true] at hd
            simp [wcStep, h1, h2, h3, hd, ihh, ihl, ihw, ihc]

/-- Claim C4 (amended): in `wc.parseArgs` the first count-selection flag
sets its own field true and clears the other two; a subsequent `-w` or
`-c` only adds its own `true`; but a subsequent `-l` ALWAYS re-clears
`countWords` and `countChars` (its branch has no first-flag guard).
Consequently: with no count flags all three fields are absent; otherwise
`countLines` is true iff some `-l` appeared, while `countWords` /
`countChars` are true iff a `-w` / `-c` appears after the last `-l`. -/
theorem wc_flag_family_closed_form (args : List String) :
    ((wcParseArgs args).countLines
      = if (countFlagsOf args).isEmpty then none
        else some (wantLines (countFlagsOf args))) ∧
    ((wcParseArgs args).countWords
      = if (countFlagsOf args).isEmpty then none
        else some (wantWords (countFlagsOf args))) ∧
    ((wcParseArgs args).countChars
      = if (countFlagsOf args).isEmpty then none
        else some (wantChars (countFlagsOf args))) :=
  ⟨(wcFold_spec args).2.1, (wcFold_spec args).2.2.1, (wcFold_spec args).2.2.2⟩

/-- Opening a double quote outside a quoted span keeps the quote in the
segment text and enters the quoted state. -/
theorem pipeChainAux_open_dq (cur rest : List Char) :
    pipeChainAux none cur (dq :: rest) = pipeChainAux (some dq) (cur ++ [dq]) rest := rfl

/-- Closing the double quote leaves the quoted state. -/
theorem pipeChainAux_close_dq (cur rest : List Char) :
    pipeChainAux (some dq) cur (dq :: rest) = pipeChainAux none (cur ++ [dq]) rest := rfl

/-- Inside an open quoted span (either quote style), every character
other than the closing quote — pipes included — is appended to the
pending segment without ever splitting. -/
theorem pipeChainAux_quoted (q : Char) (rest : List Char) :
    ∀ (inner cur : List Char), (∀ c ∈ inner, c ≠ q) →
      pipeChainAux (some q) cur (inner ++ rest)
        = pipeChainAux (some q) (cur ++ inner) rest := by
  intro inner
  induction inner with
  | nil => intro cur _; simp
  | cons c tl ih =>
    intro cur h
    have h1 : (c == q) = false := by simp [h c (List.mem_cons_self c tl)]
    simp only [List.cons_append, pipeChainAux, h1, Bool.false_eq_true, if_false,
      List.append_eq]
    rw [ih (cur ++ [c]) (fun x hx => h x (List.mem_cons_of_mem c hx))]
    simp

/-- Outside quotes, a run of characters that are neither quotes nor pipes
is appended to the pending segment without splitting. -/
theorem pipeChainAux_plain (rest : List Char) :
    ∀ (plain cur : List Char),
      (∀ c ∈ plain, c ≠ dq ∧ c ≠ sq ∧ c ≠ '|') →
      pipeChainAux none cur (plain ++ rest)
        = pipeChainAux none (cur ++ plain) rest := by
  intro plain
  induction plain with
  | nil => intro cur _; simp
  | cons c tl ih =>
    intro cur h
    obtain ⟨h1, h2, h3⟩ := h c (List.mem_cons_self c tl)
    have hq : (c == dq || c == sq) = false := by simp [h1, h2]
    have hp : (c == '|') = false := by simp [h3]
    simp only [List.cons_append, pipeChainAux, hq, hp, Bool.false_eq_true, if_false,
      List.append_eq]
    rw [ih (cur ++ [c]) (fun x hx => h x (List.mem_cons_of_mem c hx))]
    simp

/-- End of input flushes the trimmed pending segment when nonempty. -/
theorem pipeChainAux_nil (q : Option Char) (cur : List Char) :
    pipeChainAux q cur []
      = if (jsTrim cur).isEmpty then [] else [jsTrim cur] := by
  cases q <;> rfl

/-- Dropping a satisfied prefix does not change whether all elements
satisfy the predicate. -/
theorem all_dropWhile_eq {α : Type} (p : α → Bool) (l : List α) :
    (l.dropWhile p).all p = l.all p := by
  induction l with
  | nil => rfl
  | cons c rest ih =>
    by_cases hc : p c = true
    · simp [List.dropWhile_cons, hc, ih]
    · simp only [Bool.not_eq_true] at hc
      simp [List.dropWhile_cons, hc]

/-- A dropWhile result is empty exactly when every element satisfied the
predicate. -/
theorem dropWhile_isEmpty_eq_all {α : Type} (p : α → Bool) (l : List α) :
    (l.dropWhile p).isEmpty = l.all p := by
  induction l with
  | nil => rfl
  | cons c rest ih =>
    by_cases hc : p c = true
    · simp [List.dropWhile_cons, hc, ih]
    · simp only [Bool.not_eq_true] at hc
      simp [List.dropWhile_cons, hc]

/-- The trim of a segment is empty exactly when the segment is all
whitespace. -/
theorem jsTrim_isEmpty_eq_all (l : List Char) :
    (jsTrim l).isEmpty = l.all isWs := by
  unfold jsTrim
  have h1 : ∀ x : List Char, x.reverse.isEmpty = x.isEmpty := by
    intro x
    cases x <;> simp
  rw [h1, dropWhile_isEmpty_eq_all, List.all_reverse, all_dropWhile_eq]

/-- Two runs of the pipe-chain scanner from the same state whose pending
segments agree on all-whitespace-ness produce the same NUMBER of
segments: the segment texts may differ, the boundaries cannot. -/
theorem pipeChainAux_length_congr :
    ∀ (l : List Char) (st : Option Char) (cur₁ cur₂ : List Char),
      cur₁.all isWs = cur₂.all isWs →
      (pipeChainAux st cur₁ l).length = (pipeChainAux st cur₂ l).length := by
  intro l
  induction l with
  | nil =>
    intro st cur₁ cur₂ h
    rw [pipeChainAux_nil, pipeChainAux_nil, jsTrim_isEmpty_eq_all,
      jsTrim_isEmpty_eq_all, h]
    cases hb : cur₂.all isWs <;> simp [hb]
  | cons c rest ih =>
    intro st cur₁ cur₂ h
    cases st with
    | some q =>
      by_cases hc : (c == q) = true
      · simp only [pipeChainAux, hc, if_true]
        exact ih none (cur₁ ++ [c]) (cur₂ ++ [c]) (by simp [h])
      · simp only [Bool.not_eq_true] at hc
        simp only [pipeChainAux, hc, Bool.false_eq_true, if_false]
        exact ih (some q) (cur₁ ++ [c]) (cur₂ ++ [c]) (by simp [h])
    | none =>
      by_cases hq : (c == dq || c == sq) = true
      · simp only [pipeChainAux, hq, if_true]
        exact ih (some c) (cur₁ ++ [c]) (cur₂ ++ [c]) (by simp [h])
      · simp only [Bool.not_eq_true] at hq
        by_cases hp : (c == '|') = true
        · simp only [pipeChainAux, hq, Bool.false_eq_true, if_false, hp, if_true,
            List.length_cons]
        · simp only [Bool.not_eq_true] at hp
          simp only [pipeChainAux, hq, hp, Bool.false_eq_true, if_false]
          exact ih none (cur₁ ++ [c]) (cur₂ ++ [c]) (by simp [h])

/-- The only reachable open-quote states carry an actual quote
character. -/
theorem scanQuoteFrom_reachable :
    ∀ (a : List Char) (st : Option Char),
      (∀ q, st = some q → (q = dq ∨ q = sq)) →
      ∀ q, scanQuoteFrom st a = some q → q = dq ∨ q = sq := by
  intro a
  induction a with
  | nil => intro st h q hq; exact h q hq
  | cons c rest ih =>
    intro st h q hq
    cases st with
    | some q0 =>
      by_cases hc : (c == q0) = true
      · simp only [scanQuoteFrom, hc, if_true] at hq
        exact ih none (by intro q' h'; simp at h') q hq
      · simp only [Bool.not_eq_true] at hc
        simp only [scanQuoteFrom, hc, Bool.false_eq_true, if_false] at hq
        exact ih (some q0) h q hq
    | none =>
      by_cases hquote : (c == dq || c == sq) = true
      · simp only [scanQuoteFrom, hquote, if_true] at hq
        have hc2 : c = dq ∨ c = sq := by simpa using hquote
        exact ih (some c)
          (by intro q' h'; injection h' with h''; rw [← h'']; exact hc2) q hq
      · simp only [Bool.not_eq_true] at hquote
        simp only [scanQuoteFrom, hquote, Bool.false_eq_true, if_false] at hq
        exact ih none (by intro q' h'; simp at h') q hq

/-- Scan decomposition of `parsePipeChain`: consuming any prefix from
any legal configuration emits some segments and leaves a residual
configuration whose quote state is `scanQuoteFrom` of the prefix; while
a quote is open, the pending segment holds the opening quote character
and is therefore never all-whitespace. -/
theorem pipeChainAux_decomp :
    ∀ (a : List Char) (st : Option Char) (cur : List Char),
      (∀ q, st = some q → cur.all isWs = false) →
      ∃ out cur',
        (∀ b, pipeChainAux st cur (a ++ b)
          = out ++ pipeChainAux (scanQuoteFrom st a) cur' b) ∧
        (∀ q, scanQuoteFrom st a = some q → cur'.all isWs = false) := by
  intro a
  induction a with
  | nil =>
    intro st cur hinv
    refine ⟨[], cur, ?_, ?_⟩
    · intro b
      simp [scanQuoteFrom]
    · intro q hq
      exact hinv q hq
  | cons c rest ih =>
    intro st cur hinv
    cases st with
    | some q0 =>
      have hcur : cur.all isWs = false := hinv q0 rfl
      by_cases hc : (c == q0) = true
      · obtain ⟨out, cur', h1, h2⟩ := ih none (cur ++ [c])
          (by intro q' h'; simp at h')
        refine ⟨out, cur', ?_, ?_⟩
        · intro b
          simp only [List.cons_append, pipeChainAux, hc, if_true, List.append_eq]
          rw [h1 b]
          simp [scanQuoteFrom, hc]
        · intro q' h'
          apply h2 q'
          simpa [scanQuoteFrom, hc] using h'
      · simp only [Bool.not_eq_true] at hc
        obtain ⟨out, cur', h1, h2⟩ := ih (some q0) (cur ++ [c])
          (by intro q' h'; simp [hcur])
        refine ⟨out, cur', ?_, ?_⟩
        · intro b
          simp only [List.cons_append, pipeChainAux, hc, Bool.false_eq_true, if_false,
            List.append_eq]
          rw [h1 b]
          simp [scanQuoteFrom, hc]
        · intro q' h'
          apply h2 q'
          simpa [scanQuoteFrom, hc] using h'
    | none =>
      by_cases hquote : (c == dq || c == sq) = true
      · have hws : isWs c = false := by
          rcases (by simpa using hquote : c = dq ∨ c = sq) with rfl | rfl <;> decide
        obtain ⟨out, cur', h1, h2⟩ := ih (some c) (cur ++ [c])
          (by intro q' h'; simp [hws])
        refine ⟨out, cur', ?_, ?_⟩
        · intro b
          simp only [List.cons_append, pipeChainAux, hquote, if_true, List.append_eq]
          rw [h1 b]
          simp [scanQuoteFrom, hquote]
        · intro q' h'
          apply h2 q'
          simpa [scanQuoteFrom, hquote] using h'
      · simp only [Bool.not_eq_true] at hquote
        by_cases hp : (c == '|') = true
        · obtain ⟨out, cur', h1, h2⟩ := ih none [] (by intro q' h'; simp at h')
          refine ⟨jsTrim cur :: out, cur', ?_, ?_⟩
          · intro b
            simp only [List.cons_append, pipeChainAux, hquote, Bool.false_eq_true,
              if_false, hp, if_true, List.append_eq]
            rw [h1 b]
            simp [scanQuoteFrom, hquote]
          · intro q' h'
            apply h2 q'
            simpa [scanQuoteFrom, hquote] using h'
        · simp only [Bool.not_eq_true] at hp
          obtain ⟨out, cur', h1, h2⟩ := ih none (cur ++ [c])
            (by intro q' h'; simp at h')
          refine ⟨out, cur', ?_, ?_⟩
          · intro b
            simp only [List.cons_append, pipeChainAux, hquote, hp, Bool.false_eq_true,
              if_false, List.append_eq]
            rw [h1 b]
            simp [scanQuoteFrom, hquote]
          · intro q' h'
            apply h2 q'
            simpa [scanQuoteFrom, hquote] using h'

/-- Trimming fixes a list that starts and ends with non-whitespace. -/
theorem jsTrim_sandwich (a b : Char) (m : List Char)
    (ha : isWs a = false) (hb : isWs b = false) :
    jsTrim (a :: (m ++ [b])) = a :: (m ++ [b]) := by
  unfold jsTrim
  have h1 : (a :: (m ++ [b])).dropWhile isWs = a :: (m ++ [b]) := by
    simp [List.dropWhile_cons, ha]
  rw [h1]
  have h2 : (a :: (m ++ [b])).reverse = b :: (m.reverse ++ [a]) := by simp
  rw [h2]
  have h3 : (b :: (m.reverse ++ [a])).dropWhile isWs = b :: (m.reverse ++ [a]) := by
    simp [List.dropWhile_cons, hb]
  rw [h3]
  simp

/-- Claim C1 (amended): in the inline executor's `parsePipeChain`, a
pipe inside an open single- or double-quoted span never produces a
command boundary, on every input line.  Conjunct 1: while ANY quote is
open, every span character — pipes included — is absorbed into the
pending segment (no segment is ever emitted inside a span).  Conjunct 2:
for EVERY line and EVERY position whose quote-scan state is an open span
(single or double), inserting a `|` there leaves the number of parsed
commands unchanged — the quoted pipe contributes no stage boundary.
Conjunct 3 instantiates this: `grep "<inner>" f.txt` stays one single
command for any double-quote-free `<inner>`, pipes and all.  The
standalone `parsePipeCommand`, by contrast, splits the trimmed line at
every `|` (its split is not quote-aware), so the same quoted pipe does
produce a stage boundary there: `grep "a|b" f.txt` becomes two segments
(conjunct 4). -/
theorem quoted_pipe_splitting_amended :
    (∀ (q : Char) (cur mid rest : List Char), (∀ c ∈ mid, c ≠ q) →
      pipeChainAux (some q) cur (mid ++ rest)
        = pipeChainAux (some q) (cur ++ mid) rest) ∧
    (∀ (a b : List Char) (q : Char), scanQuoteFrom none a = some q →
      (parsePipeChain ⟨a ++ '|' :: b⟩).length
        = (parsePipeChain ⟨a ++ b⟩).length) ∧
    (∀ inner : List Char, (∀ c ∈ inner, c ≠ dq) →
      parsePipeChain ⟨"grep \"".data ++ inner ++ "\" f.txt".data⟩
        = [⟨"grep \"".data ++ inner ++ "\" f.txt".data⟩]) ∧
    (splitSegments (jsTrimStr "grep \"a|b\" f.txt")).length = 2 := by
  refine ⟨?_, ?_, ?_, ?_⟩
  · intro q cur mid rest h
    exact pipeChainAux_quoted q rest mid cur h
  · intro a b q hscan
    obtain ⟨out, cur', hrun, hinv⟩ :=
      pipeChainAux_decomp a none [] (by intro q' h'; simp at h')
    have hcur : cur'.all isWs = false := hinv q hscan
    have hqchar : q = dq ∨ q = sq :=
      scanQuoteFrom_reachable a none (by intro q' h'; simp at h') q hscan
    have hne : ('|' == q) = false := by
      rcases hqchar with rfl | rfl <;> decide
    show ((pipeChainAux none [] (a ++ '|' :: b)).map (fun l => (⟨l⟩ : String))).length
        = ((pipeChainAux none [] (a ++ b)).map (fun l => (⟨l⟩ : String))).length
    rw [hrun ('|' :: b), hrun b, hscan]
    have hstep : pipeChainAux (some q) cur' ('|' :: b)
        = pipeChainAux (some q) (cur' ++ ['|']) b := by
      simp [pipeChainAux, hne]
    rw [hstep]
    simp only [List.length_map, List.length_append]
    have hlen := pipeChainAux_length_congr b (some q) (cur' ++ ['|']) cur'
      (by simp [hcur])
    omega
  · intro inner h
    have ha : "grep \"".data = "grep ".data ++ [dq] := by decide
    have hb : "\" f.txt".data = [dq] ++ " f.txt".data := by decide
    have e1 : "grep \"".data ++ inner ++ "\" f.txt".data
        = "grep ".data ++ ([dq] ++ (inner ++ ([dq] ++ " f.txt".data))) := by
      rw [ha, hb]
      simp [List.append_assoc]
    show (pipeChainAux none [] ("grep \"".data ++ inner ++ "\" f.txt".data)).map
        (fun l => (⟨l⟩ : String)) = _
    rw [e1, pipeChainAux_plain ([dq] ++ (inner ++ ([dq] ++ " f.txt".data)))
      "grep ".data [] (by decide)]
    simp only [List.nil_append, List.singleton_append]
    rw [pipeChainAux_open_dq, pipeChainAux_quoted dq (dq :: " f.txt".data) inner
      ("grep ".data ++ [dq]) h, pipeChainAux_close_dq]
    have e2 : pipeChainAux none (("grep ".data ++ [dq] ++ inner) ++ [dq]) " f.txt".data
        = pipeChainAux none ((("grep ".data ++ [dq] ++ inner) ++ [dq]) ++ " f.txt".data) [] := by
      have h2 := pipeChainAux_plain [] " f.txt".data
        (("grep ".data ++ [dq] ++ inner) ++ [dq]) (by decide)
      simpa using h2
    rw [e2, pipeChainAux_nil]
    have e3 : ((("grep ".data ++ [dq] ++ inner) ++ [dq]) ++ " f.txt".data)
        = 'g' :: ((("rep ".data ++ [dq] ++ inner ++ [dq] ++ " f.tx".data)) ++ ['t']) := by
      have hg : "grep ".data = 'g' :: "rep ".data := by decide
      have ht2 : " f.txt".data = " f.tx".data ++ ['t'] := by decide
      rw [hg, ht2]
      simp [List.append_assoc]
    rw [e3, jsTrim_sandwich 'g' 't' _ (by decide) (by decide)]
    have e4 : 'g' :: ((("rep ".data ++ [dq] ++ inner ++ [dq] ++ " f.tx".data)) ++ ['t'])
        = "grep \"".data ++ inner ++ "\" f.txt".data := by
      have hg : "grep ".data = 'g' :: "rep ".data := by decide
      have ht2 : " f.txt".data = " f.tx".data ++ ['t'] := by decide
      rw [e1, hg, ht2]
      simp [List.append_assoc]
    rw [e4]
    simp [dq]
  · decide

/-- Witness for C1: the amended theorem instantiated at the quoted span
`a|b` (the inline executor keeps `grep "a|b" f.txt` as one command), and
the pipe-insertion conjunct applied at a concrete position inside an open
double-quoted span and at one inside an open single-quoted span. -/
theorem quoted_pipe_splitting_amended_witness :
    parsePipeChain "grep \"a|b\" f.txt" = ["grep \"a|b\" f.txt"] ∧
    (parsePipeChain ⟨"grep \"a".data ++ '|' :: "b\" f.txt".data⟩).length
      = (parsePipeChain ⟨"grep \"a".data ++ "b\" f.txt".data⟩).length ∧
    (parsePipeChain ⟨("grep ".data ++ sq :: "a".data) ++ '|' :: (sq :: " f.txt".data)⟩).length
      = (parsePipeChain ⟨("grep ".data ++ sq :: "a".data) ++ (sq :: " f.txt".data)⟩).length := by
  refine ⟨?_, ?_, ?_⟩
  · have h := quoted_pipe_splitting_amended.2.2.1 "a|b".data (by decide)
    have e : ("grep \"".data ++ "a|b".data ++ "\" f.txt".data)
        = "grep \"a|b\" f.txt".data := by decide
    rw [e] at h
    exact h
  · exact quoted_pipe_splitting_amended.2.1 "grep \"a".data "b\" f.txt".data dq
      (by decide)
  · exact quoted_pipe_splitting_amended.2.1 ("grep ".data ++ sq :: "a".data)
      (sq :: " f.txt".data) sq (by decide)

end CoDo
